import Mathlib

/-!
Verification development for the ai-voice-calling repository: a shallow
embedding of the call-session orchestration and transcription pipeline
(transcript aggregator, session registry, call-session state machine,
context retriever, persistence flush) together with the frontend login
handler and call-duration formatter, and theorems checking the
specification's claims against these definitions.
-/

open scoped List

namespace AiVoiceCalling

/-- Speaker of a transcript fragment: the human caller or the AI assistant. -/
inductive Speaker
  | caller
  | assistant
deriving DecidableEq, Repr

/-- Modelled from the spec: a TranscriptFragment as emitted by the speech-service
leg — speaker tag, text, nullable confidence score, monotonic sequence number
and finality flag; the backend service code defining it is not in the
repository snapshot. Confidence is modelled as an exact rational in [0,1]. -/
structure TranscriptFragment where
  speaker : Speaker
  text : String
  confidence : Option ℚ
  seq : ℕ
  isFinal : Bool
deriving DecidableEq, Repr

/-- Ordering of fragments by their sequence number. -/
def seqLe (a b : TranscriptFragment) : Prop := a.seq ≤ b.seq

instance : DecidableRel seqLe := fun a b => Nat.decLe a.seq b.seq

instance : IsTotal TranscriptFragment seqLe := ⟨fun a b => Nat.le_total a.seq b.seq⟩

instance : IsTrans TranscriptFragment seqLe := ⟨fun _ _ _ h h' => Nat.le_trans h h'⟩

/-- Modelled from the spec: the Transcript Aggregator's state — the ordered
final record plus one pending partial buffer per speaker. -/
structure AggregatorState where
  finals : List TranscriptFragment
  pendingCaller : Option TranscriptFragment
  pendingAssistant : Option TranscriptFragment
deriving DecidableEq, Repr

/-- The empty aggregator state at session start. -/
def AggregatorState.empty : AggregatorState := ⟨[], none, none⟩

/-- Modelled from the spec: `ingest(fragment)` appends a partial fragment to the
per-speaker pending buffer, or inserts a final fragment into the ordered
TranscriptRecord (ordered by sequence number) and clears that speaker's
pending buffer; the backend service code is not in the repository snapshot. -/
def ingest (st : AggregatorState) (f : TranscriptFragment) : AggregatorState :=
  if f.isFinal then
    { finals := st.finals.orderedInsert seqLe f
      pendingCaller := if f.speaker = Speaker.caller then none else st.pendingCaller
      pendingAssistant := if f.speaker = Speaker.assistant then none else st.pendingAssistant }
  else
    match f.speaker with
    | Speaker.caller => { st with pendingCaller := some f }
    | Speaker.assistant => { st with pendingAssistant := some f }

/-- Ingest a whole arrival sequence of fragments, in arrival order. -/
def ingestList (l : List TranscriptFragment) : AggregatorState :=
  l.foldl ingest AggregatorState.empty

/-- Modelled from the spec: `snapshot()` returns the current final fragments
ordered by sequence number. -/
def snapshot (st : AggregatorState) : List TranscriptFragment := st.finals

/-- Modelled from the spec: at session end only the aggregated final record is
flushed; the pending partial buffers are discarded, not flushed. -/
def flushRecord (st : AggregatorState) : List TranscriptFragment := st.finals

/-- Modelled from the spec: derived confidence statistics over the final
fragments — average, min, max over the scored fragments, the number of
scored fragments and the total number of final fragments. -/
structure ConfidenceStats where
  average : Option ℚ
  minScore : Option ℚ
  maxScore : Option ℚ
  countWithScore : ℕ
  totalCount : ℕ
deriving DecidableEq, Repr

/-- Statistics over a list of confidence scores: absent average/min/max on an
empty list, otherwise the mean, running minimum and running maximum. -/
def statsOfScores : List ℚ → ℕ → ConfidenceStats
  | [], total => ⟨none, none, none, 0, total⟩
  | s :: rest, total =>
      ⟨some ((s :: rest).sum / (s :: rest).length),
       some (rest.foldl min s), some (rest.foldl max s),
       (s :: rest).length, total⟩

/-- Modelled from the spec: `confidenceStats()` computed by a single pass over
final fragments, ignoring fragments whose confidence is null; average, min and
max are reported as absent when zero scored fragments exist. -/
def confidenceStats (st : AggregatorState) : ConfidenceStats :=
  statsOfScores (st.finals.filterMap (fun f => f.confidence)) st.finals.length

/-- A session handle: for the registry model only its identity matters. -/
abbrev SessionHandle := ℕ

/-- The Session Registry's backing map, call identifier to session handle,
modelled as an association list keyed by the call identifier. -/
abbrev Registry := List (String × SessionHandle)

/-- The registry's error taxonomy from the spec's contract. -/
inductive RegistryError
  | DuplicateSession
  | UnknownSession
deriving DecidableEq, Repr

/-- First value bound to `key` in an association list, if any. -/
def assocFind {α β : Type} [DecidableEq α] (key : α) : List (α × β) → Option β
  | [] => none
  | e :: rest => if e.1 = key then some e.2 else assocFind key rest

/-- Remove every entry bound to `key` from an association list. -/
def assocErase {α β : Type} [DecidableEq α] (key : α) (l : List (α × β)) :
    List (α × β) :=
  l.filter (fun e => decide (e.1 ≠ key))

/-- Modelled from the spec: `register(id)` fails with DuplicateSession if `id`
is already present, otherwise inserts the entry and returns the new registry;
the backend registry code is not in the repository snapshot. -/
def register (reg : Registry) (id : String) (h : SessionHandle) :
    Except RegistryError Registry :=
  match assocFind id reg with
  | some _ => Except.error RegistryError.DuplicateSession
  | none => Except.ok ((id, h) :: reg)

/-- Modelled from the spec: `lookup(id)` returns the handle or fails with
UnknownSession. -/
def lookupSession (reg : Registry) (id : String) :
    Except RegistryError SessionHandle :=
  match assocFind id reg with
  | some h => Except.ok h
  | none => Except.error RegistryError.UnknownSession

/-- Modelled from the spec: `unregister(id)` removes the entry if present and
is a no-op otherwise (idempotent). -/
def unregister (reg : Registry) (id : String) : Registry :=
  assocErase id reg

/-- The Transcription table of the prisma schema, reduced to the columns the
claims mention: callLogId (declared `@unique` in `part_007`) and the serialized
transcript string. -/
abbrev TranscriptionTable := List (ℕ × String)

/-- Number of persisted transcription rows for a given callLogId. -/
def countRows (db : TranscriptionTable) (callLogId : ℕ) : ℕ :=
  (db.filter (fun r => decide (r.1 = callLogId))).length

/-- Modelled from the spec: the idempotent transcription flush — honouring the
prisma schema's `callLogId @unique` constraint, a row is created only when no
row exists for that call; the backend flush code is not in the repository
snapshot. -/
def flushTranscription (db : TranscriptionTable) (callLogId : ℕ)
    (transcript : String) : TranscriptionTable :=
  match assocFind callLogId db with
  | some _ => db
  | none => (callLogId, transcript) :: db

/-- Modelled from the spec: the terminal-entry effects of a Call Session are
guarded by a one-shot latch so concurrent termination triggers cannot
double-flush; the state pairs the latch with the persisted table. -/
structure FinalizeState where
  flushed : Bool
  db : TranscriptionTable
deriving DecidableEq, Repr

/-- Modelled from the spec: flush-on-terminal-entry, executed only if the
one-shot latch has not fired yet. -/
def finalizeSession (st : FinalizeState) (callLogId : ℕ)
    (transcript : String) : FinalizeState :=
  if st.flushed then st
  else { flushed := true, db := flushTranscription st.db callLogId transcript }

/-- The lifecycle states of a Call Session, from the spec's state machine. -/
inductive CallState
  | Initiated
  | Connecting
  | Active
  | Draining
  | Completed
  | Failed
deriving DecidableEq, Repr

/-- A state is terminal when no transition may leave it. -/
def CallState.isTerminal : CallState → Bool
  | CallState.Completed => true
  | CallState.Failed => true
  | _ => false

/-- Modelled from the spec: the Call Session transition relation —
`Initiated → Connecting → Active → Draining → Completed` plus `Failed`
reachable from any non-terminal state; the backend session code is not in the
repository snapshot. -/
inductive Step : CallState → CallState → Prop
  | connect : Step CallState.Initiated CallState.Connecting
  | activate : Step CallState.Connecting CallState.Active
  | drain : Step CallState.Active CallState.Draining
  | complete : Step CallState.Draining CallState.Completed
  | fail (s : CallState) : s.isTerminal = false → Step s CallState.Failed

/-- The error taxonomy of the spec. -/
inductive ErrCode
  | HandshakeTimeout
  | HandshakeRejected
  | TransportDropped
  | FrameCorruption
  | PersistenceUnavailable
deriving DecidableEq, Repr

/-- The per-session snapshot the registry-level timeout handler manipulates:
lifecycle state plus the nullable error code. -/
structure SessionSnapshot where
  state : CallState
  errorCode : Option ErrCode
deriving DecidableEq, Repr

/-- A registry of live sessions with their snapshots, keyed by call id. -/
abbrev SessionMap := List (String × SessionSnapshot)

/-- Modelled from the spec: handshake-timeout handling — a session still in
`Connecting` when the bounded wait elapses transitions to `Failed` with
`HandshakeTimeout` and is removed from the registry; other sessions are left
alone. Returns the updated registry and the terminal snapshot if the timeout
fired. -/
def onHandshakeTimeout (reg : SessionMap) (id : String) :
    SessionMap × Option SessionSnapshot :=
  match assocFind id reg with
  | some s =>
      if s.state = CallState.Connecting then
        (assocErase id reg,
         some { state := CallState.Failed, errorCode := some ErrCode.HandshakeTimeout })
      else (reg, none)
  | none => (reg, none)

/-- A persisted prior-call record as the Context Retriever sees it: the
phone number it is keyed by, a recency stamp, and the transcript text. -/
structure PersistedCall where
  phone : String
  createdAt : ℕ
  transcriptText : String
deriving DecidableEq, Repr

/-- Recency order on persisted calls: `moreRecent a b` when `a` is at least
as recent as `b` (newest first when sorted by this relation). -/
def moreRecent (a b : PersistedCall) : Prop := b.createdAt ≤ a.createdAt

instance : DecidableRel moreRecent := fun a b => Nat.decLe b.createdAt a.createdAt

instance : IsTotal PersistedCall moreRecent :=
  ⟨fun a b => Nat.le_total b.createdAt a.createdAt⟩

instance : IsTrans PersistedCall moreRecent :=
  ⟨fun _ _ _ h h' => Nat.le_trans h' h⟩

/-- Truncate a string to a character budget. -/
def truncateTo (budget : ℕ) (s : String) : String :=
  String.mk (s.data.take budget)

/-- Modelled from the spec: a ContextWindow — the selected prior records,
their per-record truncated synopses, and the bounded rendered text block. -/
structure ContextWindow where
  records : List PersistedCall
  synopses : List String
  rendered : String
deriving DecidableEq, Repr

/-- The empty context window returned when there is no usable prior context. -/
def emptyWindow : ContextWindow := ⟨[], [], ""⟩

/-- Modelled from the spec: `getContext(phoneNumber, limit)` — queries the
Persistence Gateway (which may fail), keeps the records for the phone number,
orders them newest first, takes the most recent `limit`, truncates each
synopsis to `perBudget` characters and the rendered window to `totalBudget`
characters; gateway failure or zero prior records yield the empty window
rather than an error. The backend retrieval code is not in the repository
snapshot. -/
def getContext (gw : Except Unit (List PersistedCall)) (phone : String)
    (limit perBudget totalBudget : ℕ) : ContextWindow :=
  match gw with
  | Except.error _ => emptyWindow
  | Except.ok recs =>
      let mine := recs.filter (fun r => decide (r.phone = phone))
      let recent := (mine.insertionSort moreRecent).take limit
      let syns := recent.map (fun r => truncateTo perBudget r.transcriptText)
      ⟨recent, syns, truncateTo totalBudget (String.join syns)⟩

/-- The frontend login form state (`App.tsx`): whether the user is logged in
and the error message shown under the form. -/
structure LoginState where
  isLoggedIn : Bool
  error : String
deriving DecidableEq, Repr

/-- From `src/unnamed/part_005` lines 14–22 (`App.tsx`): `handleLogin` sets
`isLoggedIn` and clears the error exactly on the hard-coded credential pair,
and otherwise only sets the error message. -/
def handleLogin (st : LoginState) (email password : String) : LoginState :=
  if email = "admin@gmail.com" ∧ password = "admin@123" then
    { st with isLoggedIn := true, error := "" }
  else
    { st with error := "Invalid credentials" }

/-- JavaScript's `padStart(2, c)` on a string: left-pad with `c` up to two
characters (no-op on strings already at least that long). -/
def padStart2 (c : Char) (s : String) : String :=
  String.mk (List.replicate (2 - s.length) c ++ s.data)

/-- From `src/frontend/src/pages/CallCenter.tsx` lines 51–55: `formatDuration`
renders a second count as zero-padded minutes and seconds joined by a colon. -/
def formatDuration (seconds : ℕ) : String :=
  let mins := seconds / 60
  let secs := seconds % 60
  padStart2 '0' (toString mins) ++ ":" ++ padStart2 '0' (toString secs)

/-- The claim's reading of `formatDuration`, stated independently from the
source: `floor(s/60)` and `s mod 60`, each rendered in decimal and left-padded
with `'0'` to at least two characters, joined by `':'`. -/
def formatDurationSpec (s : ℕ) : String :=
  String.mk (List.leftpad 2 '0' (Nat.repr (s / 60)).data) ++ ":"
    ++ String.mk (List.leftpad 2 '0' (Nat.repr (s % 60)).data)

lemma finals_ingest_sorted (st : AggregatorState) (f : TranscriptFragment)
    (h : st.finals.Sorted seqLe) : (ingest st f).finals.Sorted seqLe := by
  unfold ingest
  by_cases hf : f.isFinal
  · simp only [hf, if_true]
    exact h.orderedInsert f st.finals
  · simp only [hf]
    cases f.speaker <;> simpa using h

lemma foldl_ingest_sorted (l : List TranscriptFragment) (st : AggregatorState)
    (h : st.finals.Sorted seqLe) : (l.foldl ingest st).finals.Sorted seqLe := by
  induction l generalizing st with
  | nil => simpa using h
  | cons a l ih => exact ih (ingest st a) (finals_ingest_sorted st a h)

lemma finals_ingest_perm (st : AggregatorState) (f : TranscriptFragment) :
    List.Perm (ingest st f).finals (if f.isFinal then f :: st.finals else st.finals) := by
  unfold ingest
  by_cases hf : f.isFinal
  · simp only [hf, if_true]
    exact st.finals.perm_orderedInsert seqLe f
  · simp only [hf]
    cases f.speaker <;> simp

lemma foldl_ingest_perm (l : List TranscriptFragment) (st : AggregatorState) :
    List.Perm (l.foldl ingest st).finals
      (st.finals ++ l.filter (fun f => f.isFinal)) := by
  induction l generalizing st with
  | nil => simp
  | cons a l ih =>
    have h1 := ih (ingest st a)
    by_cases ha : a.isFinal
    · have h2 : List.Perm (ingest st a).finals (a :: st.finals) := by
        simpa [ha] using finals_ingest_perm st a
      calc ((a :: l).foldl ingest st).finals
          = (l.foldl ingest (ingest st a)).finals := by simp [List.foldl_cons]
        _ ~ (ingest st a).finals ++ l.filter (fun f => f.isFinal) := h1
        _ ~ (a :: st.finals) ++ l.filter (fun f => f.isFinal) := h2.append_right _
        _ ~ st.finals ++ (a :: l).filter (fun f => f.isFinal) := by
            simp [ha, List.filter_cons]
            exact List.perm_middle.symm
    · have h2 : (ingest st a).finals = st.finals := by
        unfold ingest
        simp only [ha]
        cases a.speaker <;> simp
      calc ((a :: l).foldl ingest st).finals
          = (l.foldl ingest (ingest st a)).finals := by simp [List.foldl_cons]
        _ ~ (ingest st a).finals ++ l.filter (fun f => f.isFinal) := h1
        _ = st.finals ++ (a :: l).filter (fun f => f.isFinal) := by
            simp [h2, ha, List.filter_cons]

lemma ingestList_sorted (l : List TranscriptFragment) :
    (ingestList l).finals.Sorted seqLe :=
  foldl_ingest_sorted l AggregatorState.empty (by simp [AggregatorState.empty])

lemma ingestList_perm (l : List TranscriptFragment) :
    List.Perm (ingestList l).finals (l.filter (fun f => f.isFinal)) := by
  simpa [AggregatorState.empty] using foldl_ingest_perm l AggregatorState.empty

/-- The scored fragments are exactly the finals whose confidence is non-null. -/
lemma filterMap_confidence_filter (l : List TranscriptFragment) :
    (l.filter (fun f => f.confidence.isSome)).filterMap (fun f => f.confidence)
      = l.filterMap (fun f => f.confidence) := by
  induction l with
  | nil => rfl
  | cons a l ih =>
    by_cases h : a.confidence.isSome
    · obtain ⟨c, hc⟩ := Option.isSome_iff_exists.mp h
      simp [List.filter_cons, h, List.filterMap_cons, hc, ih]
    · have hc : a.confidence = none := Option.not_isSome_iff_eq_none.mp h
      simp [List.filter_cons, h, List.filterMap_cons, hc, ih]

lemma assocFind_erase {α β : Type} [DecidableEq α] (key : α)
    (l : List (α × β)) : assocFind key (assocErase key l) = none := by
  induction l with
  | nil => rfl
  | cons a l ih =>
    by_cases h : a.1 = key
    · simpa [assocErase, List.filter_cons, h] using ih
    · simpa [assocErase, List.filter_cons, h, assocFind] using ih

lemma assocErase_of_absent {α β : Type} [DecidableEq α] (key : α)
    (l : List (α × β)) (h : assocFind key l = none) : assocErase key l = l := by
  induction l with
  | nil => rfl
  | cons a l ih =>
    by_cases hk : a.1 = key
    · simp [assocFind, hk] at h
    · rw [assocFind, if_neg hk] at h
      simp [assocErase, List.filter_cons, hk] at ih ⊢
      exact ih h

lemma assocErase_idem {α β : Type} [DecidableEq α] (key : α)
    (l : List (α × β)) : assocErase key (assocErase key l) = assocErase key l :=
  assocErase_of_absent key _ (assocFind_erase key l)

lemma assocFind_eq_none_iff_countRows (db : TranscriptionTable) (id : ℕ) :
    assocFind id db = none ↔ countRows db id = 0 := by
  induction db with
  | nil => simp [assocFind, countRows]
  | cons a db ih =>
    by_cases h : a.1 = id
    · simp [assocFind, countRows, List.filter_cons, h]
    · simpa [assocFind, countRows, List.filter_cons, h] using ih

lemma countRows_flush_absent (db : TranscriptionTable) (id : ℕ) (t : String)
    (h : countRows db id = 0) :
    countRows (flushTranscription db id t) id = 1 := by
  have hf : assocFind id db = none := (assocFind_eq_none_iff_countRows db id).mpr h
  have h1 : flushTranscription db id t = (id, t) :: db := by
    simp [flushTranscription, hf]
  rw [h1]
  unfold countRows at h ⊢
  rw [List.filter_cons]
  have h2 : (decide (((id, t) : ℕ × String).1 = id)) = true := by simp
  rw [h2, if_pos rfl, List.length_cons]
  omega

lemma countRows_flush_present (db : TranscriptionTable) (id : ℕ) (t : String)
    (h : countRows db id ≠ 0) :
    flushTranscription db id t = db := by
  cases hf : assocFind id db with
  | none => exact absurd ((assocFind_eq_none_iff_countRows db id).mp hf) h
  | some v => simp [flushTranscription, hf]

lemma statsOfScores_average_total (sc : List ℚ) (t t' : ℕ) :
    (statsOfScores sc t).average = (statsOfScores sc t').average := by
  cases sc <;> rfl

lemma statsOfScores_min_total (sc : List ℚ) (t t' : ℕ) :
    (statsOfScores sc t).minScore = (statsOfScores sc t').minScore := by
  cases sc <;> rfl

lemma statsOfScores_max_total (sc : List ℚ) (t t' : ℕ) :
    (statsOfScores sc t).maxScore = (statsOfScores sc t').maxScore := by
  cases sc <;> rfl

lemma statsOfScores_count_total (sc : List ℚ) (t t' : ℕ) :
    (statsOfScores sc t).countWithScore = (statsOfScores sc t').countWithScore := by
  cases sc <;> rfl

lemma countRows_flush_le (db : TranscriptionTable) (i j : ℕ) (t : String)
    (h : countRows db i ≤ 1) : countRows (flushTranscription db j t) i ≤ 1 := by
  cases hf : assocFind j db with
  | some v => simpa [flushTranscription, hf] using h
  | none =>
    have h1 : flushTranscription db j t = (j, t) :: db := by
      simp [flushTranscription, hf]
    rw [h1]
    by_cases hji : j = i
    · subst hji
      have h0 : countRows db j = 0 := (assocFind_eq_none_iff_countRows db j).mp hf
      unfold countRows at h0 ⊢
      rw [List.filter_cons]
      have h2 : (decide (((j, t) : ℕ × String).1 = j)) = true := by simp
      rw [h2, if_pos rfl, List.length_cons]
      omega
    · unfold countRows at h ⊢
      rw [List.filter_cons]
      have h2 : (decide (((j, t) : ℕ × String).1 = i)) = false := by simp [hji]
      rw [h2]
      simpa using h

/-- Pending partial buffers only ever hold non-final fragments. -/
lemma foldl_ingest_pending_partial (l : List TranscriptFragment)
    (st : AggregatorState)
    (hc : ∀ f, st.pendingCaller = some f → f.isFinal = false)
    (ha : ∀ f, st.pendingAssistant = some f → f.isFinal = false) :
    (∀ f, (l.foldl ingest st).pendingCaller = some f → f.isFinal = false) ∧
    (∀ f, (l.foldl ingest st).pendingAssistant = some f → f.isFinal = false) := by
  induction l generalizing st with
  | nil => exact ⟨hc, ha⟩
  | cons a l ih =>
    rw [List.foldl_cons]
    refine ih (ingest st a) ?_ ?_
    · intro f hf
      unfold ingest at hf
      by_cases hfin : a.isFinal
      · simp only [hfin, if_true] at hf
        by_cases hs : a.speaker = Speaker.caller
        · simp [hs] at hf
        · simp only [hs, if_neg, if_false] at hf
          exact hc f hf
      · simp only [hfin] at hf
        cases hsp : a.speaker <;> rw [hsp] at hf <;> simp at hf
        · cases hb : a.isFinal with
          | false => exact hf ▸ hb
          | true => exact absurd hb hfin
        · exact hc f hf
    · intro f hf
      unfold ingest at hf
      by_cases hfin : a.isFinal
      · simp only [hfin, if_true] at hf
        by_cases hs : a.speaker = Speaker.assistant
        · simp [hs] at hf
        · simp only [hs, if_neg, if_false] at hf
          exact ha f hf
      · simp only [hfin] at hf
        cases hsp : a.speaker <;> rw [hsp] at hf <;> simp at hf
        · exact ha f hf
        · cases hb : a.isFinal with
          | false => exact hf ▸ hb
          | true => exact absurd hb hfin

lemma length_truncateTo (n : ℕ) (s : String) : (truncateTo n s).length ≤ n := by
  have h : (truncateTo n s).length = (s.data.take n).length := rfl
  rw [h, List.length_take]
  exact min_le_left _ _

lemma truncateTo_empty (n : ℕ) : truncateTo n "" = "" := by
  cases n <;> rfl

/-- C1: at most one transcription row is ever persisted per call identifier —
flushing a second time for the same call id (double termination), directly or
through the one-shot latch, leaves exactly one persisted row, and no flush can
take any call id's row count above one. -/
theorem transcription_flushed_at_most_once (db : TranscriptionTable) (id : ℕ)
    (t1 t2 : String) (h : countRows db id = 0) :
    countRows (flushTranscription (flushTranscription db id t1) id t2) id = 1 ∧
    finalizeSession (finalizeSession ⟨false, db⟩ id t1) id t2
      = finalizeSession ⟨false, db⟩ id t1 ∧
    countRows (finalizeSession (finalizeSession ⟨false, db⟩ id t1) id t2).db id = 1 ∧
    ∀ (db' : TranscriptionTable) (i j : ℕ) (t : String),
      countRows db' i ≤ 1 → countRows (flushTranscription db' j t) i ≤ 1 := by
  have h1 : countRows (flushTranscription db id t1) id = 1 :=
    countRows_flush_absent db id t1 h
  have h2 : flushTranscription (flushTranscription db id t1) id t2
      = flushTranscription db id t1 :=
    countRows_flush_present _ id t2 (by omega)
  have hlatch : finalizeSession (finalizeSession ⟨false, db⟩ id t1) id t2
      = finalizeSession ⟨false, db⟩ id t1 := by
    simp [finalizeSession]
  refine ⟨by rw [h2]; exact h1, hlatch, ?_,
    fun db' i j t hle => countRows_flush_le db' i j t hle⟩
  rw [hlatch]
  simpa [finalizeSession] using h1

/-- Witness for C1: double-flushing call id 1 into an empty table leaves
exactly one transcription row for it. -/
theorem transcription_flushed_at_most_once_witness :
    countRows (flushTranscription (flushTranscription [] 1 "a") 1 "b") 1 = 1 :=
  (transcription_flushed_at_most_once [] 1 "a" "b" rfl).1

/-- C2: for every arrival sequence of fragments, the aggregator snapshot is
the multiset of ingested final fragments ordered by sequence number; in
particular final same-speaker fragments arriving with sequence numbers
[3,1,2] yield a record ordered [1,2,3]. -/
theorem snapshot_ordered_by_sequence :
    (∀ l : List TranscriptFragment,
        (snapshot (ingestList l)).Sorted seqLe ∧
        List.Perm (snapshot (ingestList l)) (l.filter (fun f => f.isFinal))) ∧
    snapshot (ingestList
        [⟨Speaker.caller, "three", none, 3, true⟩,
         ⟨Speaker.caller, "one", none, 1, true⟩,
         ⟨Speaker.caller, "two", none, 2, true⟩])
      = [⟨Speaker.caller, "one", none, 1, true⟩,
         ⟨Speaker.caller, "two", none, 2, true⟩,
         ⟨Speaker.caller, "three", none, 3, true⟩] :=
  ⟨fun l => ⟨ingestList_sorted l, ingestList_perm l⟩, rfl⟩

/-- C3: the Session Registry keeps at most one live entry per call identifier:
register fails with DuplicateSession exactly when the id is present (and
otherwise inserts it), lookup fails with UnknownSession exactly when the id is
absent (and otherwise returns the handle), unregister is an idempotent no-op
on absent ids, and register-unregister-reunregister leaves no entry. -/
theorem registry_contract :
    (∀ (reg : Registry) (id : String) (h : SessionHandle),
        register reg id h = Except.error RegistryError.DuplicateSession
          ↔ (assocFind id reg).isSome = true) ∧
    (∀ (reg : Registry) (id : String) (h : SessionHandle),
        register reg id h = Except.ok ((id, h) :: reg)
          ↔ assocFind id reg = none) ∧
    (∀ (reg : Registry) (id : String),
        lookupSession reg id = Except.error RegistryError.UnknownSession
          ↔ assocFind id reg = none) ∧
    (∀ (reg : Registry) (id : String) (hdl : SessionHandle),
        lookupSession reg id = Except.ok hdl ↔ assocFind id reg = some hdl) ∧
    (∀ (reg : Registry) (id : String),
        assocFind id reg = none → unregister reg id = reg) ∧
    (∀ (reg : Registry) (id : String),
        unregister (unregister reg id) id = unregister reg id) ∧
    (∀ (reg reg' : Registry) (id : String) (h : SessionHandle),
        register reg id h = Except.ok reg' →
          assocFind id (unregister reg' id) = none ∧
          assocFind id (unregister (unregister reg' id) id) = none) := by
  refine ⟨?_, ?_, ?_, ?_, ?_, ?_, ?_⟩
  · intro reg id h
    cases hf : assocFind id reg <;> simp [register, hf]
  · intro reg id h
    cases hf : assocFind id reg <;> simp [register, hf]
  · intro reg id
    cases hf : assocFind id reg <;> simp [lookupSession, hf]
  · intro reg id hdl
    cases hf : assocFind id reg <;> simp [lookupSession, hf]
  · intro reg id h
    exact assocErase_of_absent id reg h
  · intro reg id
    exact assocErase_idem id reg
  · intro reg reg' id h _
    exact ⟨assocFind_erase id reg', assocFind_erase id (unregister reg' id)⟩

/-- Witness for C3: registering "CA1", unregistering it and unregistering it
again leaves a registry without the entry. -/
theorem registry_contract_witness :
    assocFind "CA1" (unregister [("CA1", (7 : ℕ))] "CA1") = none ∧
    assocFind "CA1"
        (unregister (unregister [("CA1", (7 : ℕ))] "CA1") "CA1") = none :=
  registry_contract.2.2.2.2.2.2 [] [("CA1", 7)] "CA1" 7 rfl

/-- C5: the call-session state machine only takes transitions along
Initiated → Connecting → Active → Draining → Completed plus transitions into
Failed from non-terminal states; no transition leaves Completed or Failed. -/
theorem call_state_machine_edges :
    (∀ s t : CallState, Step s t →
        (s = CallState.Initiated ∧ t = CallState.Connecting) ∨
        (s = CallState.Connecting ∧ t = CallState.Active) ∨
        (s = CallState.Active ∧ t = CallState.Draining) ∨
        (s = CallState.Draining ∧ t = CallState.Completed) ∨
        (s.isTerminal = false ∧ t = CallState.Failed)) ∧
    (∀ s t : CallState, Step s t → s.isTerminal = false) ∧
    (∀ t : CallState, ¬ Step CallState.Completed t) ∧
    (∀ t : CallState, ¬ Step CallState.Failed t) := by
  refine ⟨?_, ?_, ?_, ?_⟩
  · intro s t hst
    cases hst with
    | connect => exact Or.inl ⟨rfl, rfl⟩
    | activate => exact Or.inr (Or.inl ⟨rfl, rfl⟩)
    | drain => exact Or.inr (Or.inr (Or.inl ⟨rfl, rfl⟩))
    | complete => exact Or.inr (Or.inr (Or.inr (Or.inl ⟨rfl, rfl⟩)))
    | fail s h => exact Or.inr (Or.inr (Or.inr (Or.inr ⟨h, rfl⟩)))
  · intro s t hst
    cases hst with
    | connect => rfl
    | activate => rfl
    | drain => rfl
    | complete => rfl
    | fail s h => exact h
  · intro t h
    cases h with
    | fail _ hh => simp [CallState.isTerminal] at hh
  · intro t h
    cases h with
    | fail _ hh => simp [CallState.isTerminal] at hh

/-- Witness for C5: the Initiated → Connecting transition starts from a
non-terminal state. -/
theorem call_state_machine_edges_witness :
    CallState.Initiated.isTerminal = false :=
  call_state_machine_edges.2.1 CallState.Initiated CallState.Connecting
    Step.connect

/-- C7: partial fragments are never persisted — the flushed record contains
exactly the ingested final fragments, and a pending partial fragment left at
session end is discarded, never flushed. -/
theorem partials_never_persisted :
    (∀ (l : List TranscriptFragment) (f : TranscriptFragment),
        f ∈ flushRecord (ingestList l) → f.isFinal = true) ∧
    (∀ l : List TranscriptFragment,
        List.Perm (flushRecord (ingestList l)) (l.filter (fun f => f.isFinal))) ∧
    (∀ l : List TranscriptFragment,
        flushRecord (ingestList l) = snapshot (ingestList l)) ∧
    (∀ (l : List TranscriptFragment) (f : TranscriptFragment),
        (ingestList l).pendingCaller = some f ∨
          (ingestList l).pendingAssistant = some f →
        f.isFinal = false ∧ f ∉ flushRecord (ingestList l)) := by
  have hmem : ∀ (l : List TranscriptFragment) (f : TranscriptFragment),
      f ∈ flushRecord (ingestList l) → f.isFinal = true := by
    intro l f hf
    have := (ingestList_perm l).mem_iff.mp hf
    exact (List.mem_filter.mp this).2
  refine ⟨hmem, fun l => ingestList_perm l, fun l => rfl, ?_⟩
  intro l f hf
  have hpend := foldl_ingest_pending_partial l AggregatorState.empty
    (by intro f h; simp [AggregatorState.empty] at h)
    (by intro f h; simp [AggregatorState.empty] at h)
  have hpf : f.isFinal = false := by
    cases hf with
    | inl h => exact hpend.1 f h
    | inr h => exact hpend.2 f h
  refine ⟨hpf, fun hmem' => ?_⟩
  have := hmem l f hmem'
  rw [hpf] at this
  exact Bool.false_ne_true this

/-- Witness for C7: a pending partial fragment at session end is marked
non-final and does not appear in the flushed record. -/
theorem partials_never_persisted_witness :
    (⟨Speaker.caller, "hi", none, 1, false⟩ : TranscriptFragment).isFinal
        = false ∧
    (⟨Speaker.caller, "hi", none, 1, false⟩ : TranscriptFragment)
        ∉ flushRecord (ingestList [⟨Speaker.caller, "hi", none, 1, false⟩]) :=
  partials_never_persisted.2.2.2 [⟨Speaker.caller, "hi", none, 1, false⟩]
    ⟨Speaker.caller, "hi", none, 1, false⟩ (Or.inl rfl)

/-- C10: formatDuration renders floor(s/60) and s mod 60 in decimal, each
left-padded with '0' to at least two characters, joined by ':'; in
particular 65 seconds renders as "01:05". -/
theorem format_duration_correct :
    (∀ s : ℕ, formatDuration s = formatDurationSpec s) ∧
    formatDuration 65 = "01:05" :=
  ⟨fun _ => rfl, rfl⟩

/-- C4: confidenceStats ignores fragments with null confidence (dropping them
changes no reported statistic), reports average/min/max as absent exactly when
zero scored fragments exist, and over final fragments with confidences
[0.9, null, 0.7] yields average 0.8, min 0.7, max 0.9 and two scored
fragments. -/
theorem confidence_stats_contract :
    (∀ st : AggregatorState,
        (confidenceStats { st with
            finals := st.finals.filter (fun f => f.confidence.isSome) }).average
          = (confidenceStats st).average ∧
        (confidenceStats { st with
            finals := st.finals.filter (fun f => f.confidence.isSome) }).minScore
          = (confidenceStats st).minScore ∧
        (confidenceStats { st with
            finals := st.finals.filter (fun f => f.confidence.isSome) }).maxScore
          = (confidenceStats st).maxScore ∧
        (confidenceStats { st with
            finals := st.finals.filter (fun f => f.confidence.isSome) }).countWithScore
          = (confidenceStats st).countWithScore) ∧
    (∀ st : AggregatorState,
        ((confidenceStats st).countWithScore = 0
          ↔ (confidenceStats st).average = none) ∧
        ((confidenceStats st).countWithScore = 0
          ↔ (confidenceStats st).minScore = none) ∧
        ((confidenceStats st).countWithScore = 0
          ↔ (confidenceStats st).maxScore = none)) ∧
    confidenceStats (ingestList
        [⟨Speaker.caller, "a", some (9/10), 1, true⟩,
         ⟨Speaker.assistant, "b", none, 2, true⟩,
         ⟨Speaker.caller, "c", some (7/10), 3, true⟩])
      = ⟨some (4/5), some (7/10), some (9/10), 2, 3⟩ := by
  refine ⟨?_, ?_, ?_⟩
  · intro st
    refine ⟨?_, ?_, ?_, ?_⟩
    · show (statsOfScores ((st.finals.filter
          (fun f => f.confidence.isSome)).filterMap (fun f => f.confidence))
          (st.finals.filter (fun f => f.confidence.isSome)).length).average
        = (statsOfScores (st.finals.filterMap (fun f => f.confidence))
          st.finals.length).average
      rw [filterMap_confidence_filter]
      exact statsOfScores_average_total _ _ _
    · show (statsOfScores ((st.finals.filter
          (fun f => f.confidence.isSome)).filterMap (fun f => f.confidence))
          (st.finals.filter (fun f => f.confidence.isSome)).length).minScore
        = (statsOfScores (st.finals.filterMap (fun f => f.confidence))
          st.finals.length).minScore
      rw [filterMap_confidence_filter]
      exact statsOfScores_min_total _ _ _
    · show (statsOfScores ((st.finals.filter
          (fun f => f.confidence.isSome)).filterMap (fun f => f.confidence))
          (st.finals.filter (fun f => f.confidence.isSome)).length).maxScore
        = (statsOfScores (st.finals.filterMap (fun f => f.confidence))
          st.finals.length).maxScore
      rw [filterMap_confidence_filter]
      exact statsOfScores_max_total _ _ _
    · show (statsOfScores ((st.finals.filter
          (fun f => f.confidence.isSome)).filterMap (fun f => f.confidence))
          (st.finals.filter (fun f => f.confidence.isSome)).length).countWithScore
        = (statsOfScores (st.finals.filterMap (fun f => f.confidence))
          st.finals.length).countWithScore
      rw [filterMap_confidence_filter]
      exact statsOfScores_count_total _ _ _
  · intro st
    unfold confidenceStats
    cases hsc : st.finals.filterMap (fun f => f.confidence) with
    | nil => simp [statsOfScores]
    | cons s rest => simp [statsOfScores]
  · show statsOfScores [(9 : ℚ)/10, 7/10] 3
        = ⟨some (4/5), some (7/10), some (9/10), 2, 3⟩
    simp only [statsOfScores, ConfidenceStats.mk.injEq, Option.some_inj]
    norm_num

/-- C8: a session still in Connecting when the handshake timeout fires
transitions to Failed with error code HandshakeTimeout — a legal transition of
the state machine — and its call identifier is removed from the registry. -/
theorem handshake_timeout_fails_and_unregisters (reg : SessionMap) (id : String)
    (s : SessionSnapshot) (hfind : assocFind id reg = some s)
    (hconn : s.state = CallState.Connecting) :
    (onHandshakeTimeout reg id).2
        = some ⟨CallState.Failed, some ErrCode.HandshakeTimeout⟩ ∧
    assocFind id (onHandshakeTimeout reg id).1 = none ∧
    Step s.state CallState.Failed := by
  have h1 : onHandshakeTimeout reg id
      = (assocErase id reg,
         some ⟨CallState.Failed, some ErrCode.HandshakeTimeout⟩) := by
    simp [onHandshakeTimeout, hfind, hconn]
  refine ⟨by rw [h1], by rw [h1]; exact assocFind_erase id reg, ?_⟩
  rw [hconn]
  exact Step.fail CallState.Connecting rfl

/-- Witness for C8: a registry holding one Connecting session "CA1" fails it
with HandshakeTimeout and drops it from the registry. -/
theorem handshake_timeout_witness :
    (onHandshakeTimeout [("CA1", ⟨CallState.Connecting, none⟩)] "CA1").2
        = some ⟨CallState.Failed, some ErrCode.HandshakeTimeout⟩ ∧
    assocFind "CA1"
        (onHandshakeTimeout [("CA1", ⟨CallState.Connecting, none⟩)] "CA1").1
      = none ∧
    Step (⟨CallState.Connecting, none⟩ : SessionSnapshot).state
      CallState.Failed :=
  handshake_timeout_fails_and_unregisters
    [("CA1", ⟨CallState.Connecting, none⟩)] "CA1"
    ⟨CallState.Connecting, none⟩ rfl rfl

/-- C9: the frontend login handler grants access exactly on the hard-coded
pair ('admin@gmail.com', 'admin@123'); on any other pair it leaves the
logged-in flag unchanged and sets the error message 'Invalid credentials'. -/
theorem handle_login_contract (st : LoginState) (email password : String) :
    (email = "admin@gmail.com" ∧ password = "admin@123" →
        handleLogin st email password = ⟨true, ""⟩) ∧
    (¬(email = "admin@gmail.com" ∧ password = "admin@123") →
        (handleLogin st email password).isLoggedIn = st.isLoggedIn ∧
        (handleLogin st email password).error = "Invalid credentials") ∧
    (st.isLoggedIn = false →
        ((handleLogin st email password).isLoggedIn = true
          ↔ email = "admin@gmail.com" ∧ password = "admin@123")) := by
  refine ⟨?_, ?_, ?_⟩
  · intro h
    simp [handleLogin, h.1, h.2]
  · intro h
    simp [handleLogin, h]
  · intro h0
    by_cases hc : email = "admin@gmail.com" ∧ password = "admin@123"
    · simp [handleLogin, hc]
    · simp [handleLogin, hc, h0]

/-- C6: getContext returns at most `limit` records, all for the requested
phone number and ordered newest first, with each synopsis truncated to the
per-record budget and the rendered window to the total budget; zero prior
records yield the empty window rather than an error, and a gateway failure is
non-fatal (empty window); with three prior records for the number and limit 2
only the two most recent are returned, truncated. -/
theorem get_context_contract :
    (∀ (gw : Except Unit (List PersistedCall)) (phone : String)
        (limit perBudget totalBudget : ℕ),
        (getContext gw phone limit perBudget totalBudget).records.length
            ≤ limit ∧
        (getContext gw phone limit perBudget totalBudget).records.Sorted
            moreRecent ∧
        (∀ r ∈ (getContext gw phone limit perBudget totalBudget).records,
            r.phone = phone) ∧
        (getContext gw phone limit perBudget totalBudget).synopses
          = (getContext gw phone limit perBudget totalBudget).records.map
              (fun r => truncateTo perBudget r.transcriptText) ∧
        (∀ s ∈ (getContext gw phone limit perBudget totalBudget).synopses,
            s.length ≤ perBudget) ∧
        (getContext gw phone limit perBudget totalBudget).rendered.length
          ≤ totalBudget) ∧
    (∀ (recs : List PersistedCall) (phone : String)
        (limit perBudget totalBudget : ℕ),
        recs.filter (fun r => decide (r.phone = phone)) = [] →
        getContext (Except.ok recs) phone limit perBudget totalBudget
          = emptyWindow) ∧
    (∀ (phone : String) (limit perBudget totalBudget : ℕ) (e : Unit),
        getContext (Except.error e) phone limit perBudget totalBudget
          = emptyWindow) ∧
    (getContext (Except.ok
        [⟨"+15551234567", 1, "first call"⟩,
         ⟨"+15559999999", 5, "other number"⟩,
         ⟨"+15551234567", 3, "third call"⟩,
         ⟨"+15551234567", 2, "second call"⟩])
        "+15551234567" 2 6 100).records
      = [⟨"+15551234567", 3, "third call"⟩,
         ⟨"+15551234567", 2, "second call"⟩] ∧
    (getContext (Except.ok
        [⟨"+15551234567", 1, "first call"⟩,
         ⟨"+15559999999", 5, "other number"⟩,
         ⟨"+15551234567", 3, "third call"⟩,
         ⟨"+15551234567", 2, "second call"⟩])
        "+15551234567" 2 6 100).synopses
      = ["third ", "second"] := by
  refine ⟨?_, ?_, fun phone limit pb tb e => rfl, by decide, by decide⟩
  · intro gw phone limit pb tb
    cases gw with
    | error e =>
      refine ⟨Nat.zero_le _, List.sorted_nil, ?_, rfl, ?_, Nat.zero_le _⟩
      · intro r hr
        exact absurd hr (List.not_mem_nil r)
      · intro s hs
        exact absurd hs (List.not_mem_nil s)
    | ok recs =>
      have hrec : (getContext (Except.ok recs) phone limit pb tb).records
          = ((recs.filter (fun r =>
              decide (r.phone = phone))).insertionSort moreRecent).take limit :=
        rfl
      have hsyn : (getContext (Except.ok recs) phone limit pb tb).synopses
          = (getContext (Except.ok recs) phone limit pb tb).records.map
              (fun r => truncateTo pb r.transcriptText) := rfl
      have hren : (getContext (Except.ok recs) phone limit pb tb).rendered
          = truncateTo tb (String.join
              ((getContext (Except.ok recs) phone limit pb tb).synopses)) := rfl
      refine ⟨?_, ?_, ?_, hsyn, ?_, ?_⟩
      · rw [hrec, List.length_take]
        exact min_le_left _ _
      · rw [hrec]
        exact (List.sorted_insertionSort moreRecent _).sublist
          (List.take_sublist _ _)
      · intro r hr
        rw [hrec] at hr
        have h1 := List.mem_of_mem_take hr
        have h2 := (List.perm_insertionSort moreRecent _).mem_iff.mp h1
        exact of_decide_eq_true (List.mem_filter.mp h2).2
      · intro s hs
        rw [hsyn] at hs
        obtain ⟨r, _, hr⟩ := List.mem_map.mp hs
        rw [← hr]
        exact length_truncateTo pb _
      · rw [hren]
        exact length_truncateTo tb _
  · intro recs phone limit pb tb h
    have h2 : getContext (Except.ok recs) phone limit pb tb
        = ⟨((recs.filter (fun r =>
              decide (r.phone = phone))).insertionSort moreRecent).take limit,
           (((recs.filter (fun r =>
              decide (r.phone = phone))).insertionSort moreRecent).take limit).map
              (fun r => truncateTo pb r.transcriptText),
           truncateTo tb (String.join
             ((((recs.filter (fun r =>
                decide (r.phone = phone))).insertionSort moreRecent).take limit).map
                (fun r => truncateTo pb r.transcriptText)))⟩ := rfl
    rw [h2, h]
    simp only [List.insertionSort, List.take_nil, List.map_nil, emptyWindow,
      ContextWindow.mk.injEq]
    exact ⟨trivial, trivial, truncateTo_empty tb⟩

/-- Witness for C6: with no prior records the retriever returns the empty
window, not an error. -/
theorem get_context_witness :
    getContext (Except.ok ([] : List PersistedCall)) "+15551234567" 2 10 100
      = emptyWindow :=
  get_context_contract.2.1 [] "+15551234567" 2 10 100 rfl

/-- Witness for C9: the hard-coded pair logs in from the logged-out state and
clears the error. -/
theorem handle_login_witness :
    handleLogin ⟨false, ""⟩ "admin@gmail.com" "admin@123"
      = ⟨true, ""⟩ :=
  (handle_login_contract ⟨false, ""⟩ "admin@gmail.com" "admin@123").1
    (by exact ⟨rfl, rfl⟩)

end AiVoiceCalling
